import Mathlib

/-!
# PhotoMingle backend: shallow embedding and verification

Shallow embedding of the PhotoMingle backend core (event invitation
management, invitation verification, notification dispatch, and the
photo face-recognition ingest pipeline), translated from
`src/backend/src/controllers/eventController.js`,
`src/backend/src/controllers/inviteController.js`,
the notification controller, and the photo controller
(`processPhoto`), together with theorems settling the specification
claims.

Persistence is modelled as an explicit store of events
(`List Event`); every controller returns the pair of its HTTP-level
outcome (`Except AppError _`) and the resulting store, so "never
mutates state" and "single atomic save" are provable statements.
Mongoose ObjectIds are modelled as `Nat`; uuid generation is an
explicit code supply `Nat → String` consumed one index per loop
iteration, mirroring the per-iteration `uuidv4()` call.
-/

/-- `AppError(message, statusCode)` from `utils/appError`. -/
structure AppError where
  message : String
  status : Nat
deriving Repr, DecidableEq

/-- A user document: only the fields the core reads (`_id`, `email`, `name`). -/
structure User where
  id : Nat
  email : String
  name : String
deriving Repr, DecidableEq

/-- `User.findById`. -/
def findUser (users : List User) (uid : Nat) : Option User :=
  users.find? (fun u => u.id = uid)

/-- One entry of `Event.invitees` (Event.js schema): optional bound user,
optional email, status string, invite code. -/
structure Invitee where
  id : Nat
  user : Option Nat
  email : Option String
  status : String
  inviteCode : String
deriving Repr, DecidableEq

/-- An event document: the fields the invitation and photo flows read. -/
structure Event where
  id : Nat
  name : String
  date : Nat
  location : String
  description : String
  creator : Nat
  invitees : List Invitee
deriving Repr, DecidableEq

/-- `Event.findById` over the explicit store. -/
def findEvent (db : List Event) (eid : Nat) : Option Event :=
  db.find? (fun e => e.id = eid)

/-- `event.save()`: write the document back into the store by id. -/
def saveEvent (db : List Event) (ev : Event) : List Event :=
  db.map (fun e => if e.id = ev.id then ev else e)

/-- An invitee spec as posted to `addInvitees`: `{userId}` or `{email}`. -/
structure InviteeSpec where
  userId : Option Nat
  email : Option String
deriving Repr, DecidableEq

/-- The per-spec loop of `addInvitees` (eventController.js lines 172-209).
`k` indexes the uuid supply (one fresh code drawn per iteration, used or
not), `nid` is the id given to the next pushed subdocument.  A spec with a
`userId` that does not resolve is skipped; a spec whose user or email is
already present is skipped; otherwise a `pending` invitee is appended. -/
def addInviteesLoop (users : List User) (codeSupply : Nat → String) :
    List Invitee → List InviteeSpec → Nat → Nat → List Invitee
  | inv, [], _, _ => inv
  | inv, spec :: rest, k, nid =>
    let inviteCode := codeSupply k
    match spec.userId with
    | some uid =>
      match findUser users uid with
      | none => addInviteesLoop users codeSupply inv rest (k + 1) nid
      | some u =>
        if inv.any (fun i => i.user = some uid) then
          addInviteesLoop users codeSupply inv rest (k + 1) nid
        else
          addInviteesLoop users codeSupply
            (inv ++ [⟨nid, some uid, some u.email, "pending", inviteCode⟩])
            rest (k + 1) (nid + 1)
    | none =>
      match spec.email with
      | some e =>
        if inv.any (fun i => i.email = some e) then
          addInviteesLoop users codeSupply inv rest (k + 1) nid
        else
          addInviteesLoop users codeSupply
            (inv ++ [⟨nid, none, some e, "pending", inviteCode⟩])
            rest (k + 1) (nid + 1)
      | none => addInviteesLoop users codeSupply inv rest (k + 1) nid

/-- `addInvitees` (eventController.js lines 152-220): body check, event
lookup, creator check, dedup loop, one `event.save()` at the end. -/
def addInvitees (db : List Event) (users : List User) (codeSupply : Nat → String)
    (nid : Nat) (eid requesterId : Nat) (specs : Option (List InviteeSpec)) :
    Except AppError Event × List Event :=
  match specs with
  | none => (.error ⟨"Please provide invitees array", 400⟩, db)
  | some specList =>
    match findEvent db eid with
    | none => (.error ⟨"Event not found", 404⟩, db)
    | some event =>
      if event.creator = requesterId then
        let ev := { event with
          invitees := addInviteesLoop users codeSupply event.invitees specList 0 nid }
        (.ok ev, saveEvent db ev)
      else
        (.error ⟨"Not authorized to add invitees to this event", 401⟩, db)

/-- `Array.prototype.findIndex` on the invitee list: index of the first
entry satisfying `p`, `none` when absent (JS yields -1). -/
def findIndexList (p : Invitee → Bool) : List Invitee → Option Nat
  | [] => none
  | x :: xs => if p x then some 0 else (findIndexList p xs).map (fun i => i + 1)

/-- Replace the element at index `idx` with `f` of it (in-place update of
`event.invitees[inviteeIndex]`). -/
def modifyIdx (f : Invitee → Invitee) : List Invitee → Nat → List Invitee
  | [], _ => []
  | x :: xs, 0 => f x :: xs
  | x :: xs, n + 1 => x :: modifyIdx f xs n

/-- The mutation `respondToInvite` applies to the matched invitee: set the
status, and bind the caller's identity only when no user is bound yet
(eventController.js lines 293-299). -/
def respondUpdate (status : String) (callerId : Nat) (inv : Invitee) : Invitee :=
  { inv with
    status := status
    user := match inv.user with
            | some u => some u
            | none => some callerId }

/-- `respondToInvite` (eventController.js lines 266-309): status must be
`accepted`/`declined`, a code must be given, the event must exist, the
code must match an invitee; then status update, optional late identity
binding, one save. -/
def respondToInvite (db : List Event) (eid callerId : Nat)
    (status inviteCode : String) : Except AppError Event × List Event :=
  if status = "accepted" ∨ status = "declined" then
    if inviteCode = "" then
      (.error ⟨"Please provide invite code", 400⟩, db)
    else
      match findEvent db eid with
      | none => (.error ⟨"Event not found", 404⟩, db)
      | some event =>
        match findIndexList (fun inv => inv.inviteCode = inviteCode) event.invitees with
        | none => (.error ⟨"Invalid invite code", 400⟩, db)
        | some idx =>
          let ev := { event with
            invitees := modifyIdx (respondUpdate status callerId) event.invitees idx }
          (.ok ev, saveEvent db ev)
  else
    (.error ⟨"Please provide valid status (accepted/declined)", 400⟩, db)

/-- The redacted event projection `verifyInvitation` answers with: only
name, date, location, description and the creator's display name; no
invitee list. -/
structure RedactedEvent where
  eventId : Nat
  name : String
  date : Nat
  location : String
  description : String
  creatorName : String
deriving Repr, DecidableEq

/-- The public view `verifyInvitation` returns: redacted event plus the
matched invitee's id, status and own code only. -/
structure VerifyView where
  event : RedactedEvent
  invitationId : Nat
  invitationStatus : String
  invitationCode : String
deriving Repr, DecidableEq

/-- `verifyInvitation` (inviteController.js lines 110-150): load the event
(invitee user/email fields deselected), 404 when absent, find the invitee
by code, 400 when no match, else answer with the redacted view.  The
handler performs no save, so the store component is returned unchanged. -/
def verifyInvitation (db : List Event) (users : List User) (eid : Nat)
    (code : String) : Except AppError VerifyView × List Event :=
  match findEvent db eid with
  | none => (.error ⟨"Event not found", 404⟩, db)
  | some event =>
    match event.invitees.find? (fun inv => inv.inviteCode = code) with
    | none => (.error ⟨"Invalid invitation code", 400⟩, db)
    | some invitation =>
      let creatorName := (findUser users event.creator).map User.name |>.getD ""
      (.ok ⟨⟨event.id, event.name, event.date, event.location,
              event.description, creatorName⟩,
            invitation.id, invitation.status, invitation.inviteCode⟩, db)

/-- Input to `createNotification` (the `notificationData` object). -/
structure NotificationData where
  recipient : Option Nat
  email : Option String
  ntype : String
  title : String
  message : String
  relatedEvent : Option Nat
  relatedPhoto : Option Nat
deriving Repr, DecidableEq

/-- A Notification document (Notification.js schema); `isRead`/`isSent`
default to false on creation. -/
structure Notification where
  recipient : Option Nat
  email : Option String
  ntype : String
  title : String
  message : String
  relatedEvent : Option Nat
  relatedPhoto : Option Nat
  isRead : Bool
  isSent : Bool
deriving Repr, DecidableEq

/-- `Notification.create`: the stored record with default flags. -/
def buildNotification (d : NotificationData) : Notification :=
  ⟨d.recipient, d.email, d.ntype, d.title, d.message,
   d.relatedEvent, d.relatedPhoto, false, false⟩

/-- `createNotification` (notification controller): create the record
(rethrow on persistence failure, modelled by `createOk`); when the record
carries an email, attempt delivery through `sendNotificationEmail`, whose
own try/catch swallows any delivery failure (modelled by `deliverOk`) so
the caller still receives the record; `isSent` flips to true only after a
successful delivery. -/
def createNotification (createOk deliverOk : Bool) (d : NotificationData) :
    Except AppError Notification :=
  if createOk then
    let n := buildNotification d
    match n.email with
    | none => .ok n
    | some _ => if deliverOk then .ok { n with isSent := true } else .ok n
  else
    .error ⟨"Error creating notification", 500⟩

/-- The `event_invite` notification `sendInvitations` creates for an
invitee with a bound user (inviteController.js lines 72-78). -/
def inviteNotificationData (event : Event) (creatorName : String) (uid : Nat) :
    NotificationData :=
  ⟨some uid, none, "event_invite",
   "You are invited to " ++ event.name,
   creatorName ++ " has invited you to " ++ event.name,
   some event.id, none⟩

/-- Outcome of `sendInvitations`: invitee ids reported sent, ids reported
failed, and the notification records created along the way. -/
structure SendOutcome where
  sent : List Nat
  failed : List Nat
  notifications : List Notification
deriving Repr, DecidableEq

/-- The per-id loop of `sendInvitations` (inviteController.js lines
36-93): unknown ids fail; otherwise the invitation email is sent
(`emailOk` is the delivery oracle; a throw lands the id in `failed`), and
a durable `event_invite` notification is created only when the invitee
entry has a bound user; the id is then reported sent. -/
def sendLoop (event : Event) (creatorName : String) (emailOk : Nat → Bool) :
    List Nat → List Nat × List Nat × List Notification
  | [] => ([], [], [])
  | iid :: rest =>
    let r := sendLoop event creatorName emailOk rest
    match event.invitees.find? (fun inv => inv.id = iid) with
    | none => (r.1, iid :: r.2.1, r.2.2)
    | some inv =>
      if emailOk iid then
        match inv.user with
        | some uid =>
          match createNotification true true (inviteNotificationData event creatorName uid) with
          | .ok n => (iid :: r.1, r.2.1, n :: r.2.2)
          | .error _ => (r.1, iid :: r.2.1, r.2.2)
        | none => (iid :: r.1, r.2.1, r.2.2)
      else (r.1, iid :: r.2.1, r.2.2)

/-- `sendInvitations` (inviteController.js lines 12-103): event lookup,
creator check, non-empty id array check, then the per-id loop.  Read-only
with respect to the event store. -/
def sendInvitations (db : List Event) (users : List User) (eid requesterId : Nat)
    (inviteeIds : List Nat) (emailOk : Nat → Bool) :
    Except AppError SendOutcome × List Event :=
  match findEvent db eid with
  | none => (.error ⟨"Event not found", 404⟩, db)
  | some event =>
    if event.creator = requesterId then
      if inviteeIds.isEmpty then
        (.error ⟨"Please provide invitee IDs", 400⟩, db)
      else
        let creatorName := (findUser users event.creator).map User.name |>.getD ""
        let r := sendLoop event creatorName emailOk inviteeIds
        (.ok ⟨r.1, r.2.1, r.2.2⟩, db)
    else
      (.error ⟨"Not authorized to send invitations for this event", 401⟩, db)

/-- A face bounding box as returned by the registry (relative
width/height/left/top); carried through unchanged, no arithmetic. -/
structure BoundingBox where
  width : Int
  height : Int
  left : Int
  top : Int
deriving Repr, DecidableEq

/-- A `searchFaces` match: `Face.FaceId`, `Face.ExternalImageId` (the
application user id), `Face.BoundingBox`, `Similarity`. -/
structure FaceMatch where
  faceId : String
  externalUserId : Nat
  boundingBox : BoundingBox
  similarity : Nat
deriving Repr, DecidableEq

/-- One entry of `photo.detectedFaces` (Photo schema). -/
structure DetectedFace where
  faceId : String
  user : Nat
  boundingBox : BoundingBox
  confidence : Nat
deriving Repr, DecidableEq

/-- A photo document: the fields `processPhoto` reads and writes. -/
structure Photo where
  id : Nat
  eventId : Nat
  detectedFaces : List DetectedFace
  isProcessed : Bool
deriving Repr, DecidableEq

/-- The registry responses for one pipeline run: `detectResult.FaceDetails`
and `searchResult.FaceMatches` (each `none` when the field is absent from
the response object). -/
structure PipelineEnv where
  detectResult : Option (List BoundingBox)
  searchResult : Option (List FaceMatch)
deriving Repr, DecidableEq

/-- What a pipeline run did: every `photo.save()` in order (each entry is
the full document state written), the notification records created, and
whether `searchFaces` was called. -/
structure PipelineResult where
  saves : List Photo
  notifications : List Notification
  searchCalled : Bool
deriving Repr, DecidableEq

/-- The `photo_tagged` notification `processPhoto` creates per resolved
match (photo controller lines 120-127). -/
def taggedNotificationData (event : Event) (photo : Photo) (uid : Nat) :
    NotificationData :=
  ⟨some uid, none, "photo_tagged",
   "You were recognized in a photo",
   "You were recognized in a photo from the event: " ++ event.name,
   some event.id, some photo.id⟩

/-- The match loop of `processPhoto` (photo controller lines 105-129):
resolve each match's external user id; on success append a `DetectedFace`
and create a `photo_tagged` notification; an unresolved id contributes
nothing.  Notification persistence succeeds in this deterministic
environment. -/
def runMatches (users : List User) (event : Event) (photo : Photo) :
    List FaceMatch → List DetectedFace × List Notification
  | [] => ([], [])
  | m :: rest =>
    match findUser users m.externalUserId with
    | none => runMatches users event photo rest
    | some _ =>
      let (fs, ns) := runMatches users event photo rest
      (⟨m.faceId, m.externalUserId, m.boundingBox, m.similarity⟩ :: fs,
       buildNotification (taggedNotificationData event photo m.externalUserId) :: ns)

/-- `processPhoto` (photo controller lines 71-137): reload photo and
event, abort silently when either is missing; `detectFaces`; on zero (or
absent) face details mark processed, save once, and return without
calling `searchFaces`; otherwise `searchFaces`, run the match loop when
matches are present, then mark processed and save the accumulated face
list in one write. -/
def processPhoto (users : List User) (env : PipelineEnv)
    (photoOpt : Option Photo) (eventOpt : Option Event) : PipelineResult :=
  match photoOpt with
  | none => ⟨[], [], false⟩
  | some photo =>
    match eventOpt with
    | none => ⟨[], [], false⟩
    | some event =>
      match env.detectResult with
      | none => ⟨[{ photo with isProcessed := true }], [], false⟩
      | some ds =>
        if ds.isEmpty then
          ⟨[{ photo with isProcessed := true }], [], false⟩
        else
          match env.searchResult with
          | none => ⟨[{ photo with isProcessed := true }], [], true⟩
          | some ms =>
            if ms.isEmpty then
              ⟨[{ photo with isProcessed := true }], [], true⟩
            else
              let (fs, ns) := runMatches users event photo ms
              ⟨[{ photo with
                    detectedFaces := photo.detectedFaces ++ fs
                    isProcessed := true }], ns, true⟩

/-- Two invitee entries are compatible when they do not claim the same
bound user identity, and, when neither is bound to a user, do not carry
the same email (the spec's dedup invariant, read off the data-model
section). -/
def inviteeCompat (a b : Invitee) : Prop :=
  (a.user.isSome = true → a.user ≠ b.user) ∧
  (a.user = none → b.user = none → a.email.isSome = true → a.email ≠ b.email)

instance (a b : Invitee) : Decidable (inviteeCompat a b) := by
  unfold inviteeCompat
  infer_instance

/-- The invitee-list invariant: at most one entry per bound user identity
and at most one entry per email among entries with no bound user. -/
def inviteeListOk (l : List Invitee) : Prop := l.Pairwise inviteeCompat

instance (l : List Invitee) : Decidable (inviteeListOk l) := by
  unfold inviteeListOk
  infer_instance

/-- The invite codes held by a list of invitees, in order. -/
def codesOf (l : List Invitee) : List String := l.map Invitee.inviteCode

/-- The `DetectedFace` entry `processPhoto` builds from one search match. -/
def toDetectedFace (m : FaceMatch) : DetectedFace :=
  ⟨m.faceId, m.externalUserId, m.boundingBox, m.similarity⟩

/-- Whether a match's external user id resolves to an existing user. -/
def resolvesToUser (users : List User) (m : FaceMatch) : Bool :=
  (findUser users m.externalUserId).isSome

/-! ## Concrete sample data, used by the witness theorems -/

def users1 : List User := [⟨1, "a@x.com", "Alice"⟩, ⟨2, "b@x.com", "Bob"⟩]

def inv100 : Invitee := ⟨100, some 2, some "b@x.com", "pending", "code2"⟩

def inv101 : Invitee := ⟨101, none, some "c@x.com", "pending", "code3"⟩

def ev1 : Event := ⟨10, "Party", 20250101, "Hall", "A party", 1, [inv100, inv101]⟩

def db1 : List Event := [ev1]

/-- `ev1` after `respondToInvite` accepts via `code2` (entry 100 keeps its
bound user 2). -/
def evR4 : Event :=
  ⟨10, "Party", 20250101, "Hall", "A party", 1,
   [⟨100, some 2, some "b@x.com", "accepted", "code2"⟩, inv101]⟩

/-- `ev1` after adding the email spec `d@x.com` (duplicate spec in the
same batch skipped). -/
def evA : Event :=
  ⟨10, "Party", 20250101, "Hall", "A party", 1,
   [inv100, inv101, ⟨500, none, some "d@x.com", "pending", "fresh"⟩]⟩

/-- `ev1` after adding the email spec `a@x.com` with code supply `cs7`. -/
def evR7 : Event :=
  ⟨10, "Party", 20250101, "Hall", "A party", 1,
   [inv100, inv101, ⟨600, none, some "a@x.com", "pending", "n0"⟩]⟩

/-- A two-code supply for the C7 witness. -/
def cs7 : Nat → String := fun k => if k = 0 then "n0" else "n1"

def photoP : Photo := ⟨5, 10, [], false⟩

def bb0 : BoundingBox := ⟨1, 1, 0, 0⟩

/-- A match resolving to user 2. -/
def mA : FaceMatch := ⟨"fA", 2, bb0, 95⟩

/-- A match whose external id 99 resolves to no user. -/
def mB : FaceMatch := ⟨"fB", 99, bb0, 97⟩

/-- Registry responses: one face detail, two matches. -/
def envM : PipelineEnv := ⟨some [bb0], some [mA, mB]⟩

/-- Registry responses: zero face details. -/
def envZ : PipelineEnv := ⟨some [], none⟩

/-- Constant code supply for the C2 witness (codes irrelevant to dedup). -/
def csF : Nat → String := fun _ => "fresh"

/-- Batch naming the same email twice (C2 witness). -/
def specsW1 : List InviteeSpec := [⟨none, some "d@x.com"⟩, ⟨none, some "d@x.com"⟩]

/-- Batch re-adding already-invited user 2 (C2 witness). -/
def specsW2 : List InviteeSpec := [⟨some 2, none⟩]

/-- Batch naming the same email twice (C7 witness). -/
def specsW7 : List InviteeSpec := [⟨none, some "a@x.com"⟩, ⟨none, some "a@x.com"⟩]

/-- Decidable equality for controller outcomes, so witnesses can be
checked by evaluation. -/
instance exceptDecEq {ε α : Type} [DecidableEq ε] [DecidableEq α] :
    DecidableEq (Except ε α) := fun a b =>
  match a, b with
  | .error e1, .error e2 =>
    if h : e1 = e2 then isTrue (by rw [h])
    else isFalse (fun hh => h (by cases hh; rfl))
  | .ok x, .ok y =>
    if h : x = y then isTrue (by rw [h])
    else isFalse (fun hh => h (by cases hh; rfl))
  | .error _, .ok _ => isFalse (fun hh => Except.noConfusion hh)
  | .ok _, .error _ => isFalse (fun hh => Except.noConfusion hh)

/-! ## Helper lemmas -/

theorem findIndexList_eq_none (p : Invitee → Bool) :
    ∀ l : List Invitee, (∀ x ∈ l, p x = false) → findIndexList p l = none := by
  intro l
  induction l with
  | nil => intro _; rfl
  | cons x xs ih =>
    intro h
    have hx : p x = false := h x (List.mem_cons_self x xs)
    have hxs := ih (fun y hy => h y (List.mem_cons_of_mem x hy))
    simp [findIndexList, hx, hxs]

theorem modifyIdx_length (f : Invitee → Invitee) :
    ∀ (l : List Invitee) (idx : Nat), (modifyIdx f l idx).length = l.length := by
  intro l
  induction l with
  | nil => intro idx; rfl
  | cons x xs ih =>
    intro idx
    cases idx with
    | zero => simp [modifyIdx]
    | succ n => simp [modifyIdx, ih n]

theorem modifyIdx_get (f : Invitee → Invitee) :
    ∀ (l : List Invitee) (idx i : Nat),
      (modifyIdx f l idx).get? i =
        if i = idx then (l.get? i).map f else l.get? i := by
  intro l
  induction l with
  | nil => intro idx i; simp [modifyIdx]
  | cons x xs ih =>
    intro idx i
    cases idx with
    | zero =>
      cases i with
      | zero => simp [modifyIdx]
      | succ j => simp [modifyIdx]
    | succ n =>
      cases i with
      | zero => simp [modifyIdx]
      | succ j =>
        simp only [modifyIdx, List.get?_cons_succ]
        rw [ih n j]
        by_cases h : j = n
        · simp [h]
        · have h2 : ¬(j + 1 = n + 1) := fun hj => h (Nat.succ_injective hj)
          simp [h, h2]

theorem runMatches_eq (users : List User) (event : Event) (photo : Photo) :
    ∀ ms : List FaceMatch,
      runMatches users event photo ms =
        ((ms.filter (resolvesToUser users)).map toDetectedFace,
         (ms.filter (resolvesToUser users)).map
           (fun m => buildNotification (taggedNotificationData event photo m.externalUserId))) := by
  intro ms
  induction ms with
  | nil => rfl
  | cons m rest ih =>
    cases h : findUser users m.externalUserId with
    | none =>
      have hres : resolvesToUser users m = false := by
        simp [resolvesToUser, h]
      simp [runMatches, h, List.filter_cons, hres, ih]
    | some u =>
      have hres : resolvesToUser users m = true := by
        simp [resolvesToUser, h]
      simp [runMatches, h, List.filter_cons, hres, ih, toDetectedFace]

/-! ## Claim theorems -/

/-- C9: for a photo whose face detection reports zero faces (the
`FaceDetails` field absent or empty), `processPhoto` performs exactly one
save, in which `isProcessed` is true and the `detectedFaces` list is
still empty, creates no notification, and never calls `searchFaces`. -/
theorem processPhoto_zero_faces (users : List User) (env : PipelineEnv)
    (photo : Photo) (event : Event)
    (hdet : env.detectResult = none ∨ env.detectResult = some [])
    (hempty : photo.detectedFaces = []) :
    processPhoto users env (some photo) (some event) =
      ⟨[⟨photo.id, photo.eventId, [], true⟩], [], false⟩ := by
  obtain ⟨pid, pev, pf, pp⟩ := photo
  simp only at hempty
  subst hempty
  rcases hdet with h | h <;> simp [processPhoto, h]

/-- Witness for C9 at concrete inputs: `envZ` reports no face details. -/
theorem processPhoto_zero_faces_witness :
    processPhoto users1 envZ (some photoP) (some ev1) =
      ⟨[⟨5, 10, [], true⟩], [], false⟩ := by
  have h := processPhoto_zero_faces users1 envZ photoP ev1 (Or.inr rfl) rfl
  rw [h]
  decide

/-- C1: when detection reports faces and `searchFaces` returns matches
`ms`, `processPhoto` appends one `DetectedFace` per match whose external
id resolves to a user — in match order, carrying the match's face id,
user, bounding box and similarity — and creates one `photo_tagged`
notification per such match, addressed to that user and referencing the
event and photo; a match that does not resolve contributes neither.  The
photo is saved exactly once, with `isProcessed` true and the accumulated
list together, so `isProcessed` becomes true only in the write that
records all entries.  When all N matches resolve this yields exactly N
entries and N notifications. -/
theorem processPhoto_match_fanout (users : List User) (env : PipelineEnv)
    (photo : Photo) (event : Event) (ds : List BoundingBox) (ms : List FaceMatch)
    (hdet : env.detectResult = some ds) (hne : ds ≠ [])
    (hsearch : env.searchResult = some ms) :
    processPhoto users env (some photo) (some event) =
      ⟨[{ photo with
            detectedFaces :=
              photo.detectedFaces ++ (ms.filter (resolvesToUser users)).map toDetectedFace
            isProcessed := true }],
       (ms.filter (resolvesToUser users)).map
         (fun m => buildNotification (taggedNotificationData event photo m.externalUserId)),
       true⟩ ∧
    ((∀ m ∈ ms, resolvesToUser users m = true) →
      processPhoto users env (some photo) (some event) =
        ⟨[{ photo with
              detectedFaces := photo.detectedFaces ++ ms.map toDetectedFace
              isProcessed := true }],
         ms.map (fun m => buildNotification (taggedNotificationData event photo m.externalUserId)),
         true⟩) := by
  have hds : ds.isEmpty = false := by
    cases ds with
    | nil => exact absurd rfl hne
    | cons x xs => rfl
  have hmain : processPhoto users env (some photo) (some event) =
      ⟨[{ photo with
            detectedFaces :=
              photo.detectedFaces ++ (ms.filter (resolvesToUser users)).map toDetectedFace
            isProcessed := true }],
       (ms.filter (resolvesToUser users)).map
         (fun m => buildNotification (taggedNotificationData event photo m.externalUserId)),
       true⟩ := by
    simp only [processPhoto, hdet, hds, hsearch]
    cases hms : ms.isEmpty with
    | true =>
      have hnil : ms = [] := by
        cases ms with
        | nil => rfl
        | cons x xs => simp at hms
      subst hnil
      simp
    | false =>
      simp only [Bool.false_eq_true, if_false]
      rw [runMatches_eq users event photo ms]
  refine ⟨hmain, fun hall => ?_⟩
  rw [hmain]
  have : ms.filter (resolvesToUser users) = ms := List.filter_eq_self.mpr hall
  rw [this]

/-- Witness for C1 at concrete inputs: `envM` holds one resolving match
(user 2) and one match with unresolved external id 99. -/
theorem processPhoto_match_fanout_witness :
    processPhoto users1 envM (some photoP) (some ev1) =
      ⟨[⟨5, 10, [⟨"fA", 2, bb0, 95⟩], true⟩],
       [⟨some 2, none, "photo_tagged", "You were recognized in a photo",
         "You were recognized in a photo from the event: Party", some 10, some 5,
         false, false⟩],
       true⟩ := by
  have h := (processPhoto_match_fanout users1 envM photoP ev1 [bb0] [mA, mB]
    rfl (by decide) rfl).1
  rw [h]
  decide

/-- Branch equation: invalid status short-circuits `respondToInvite`. -/
theorem respondToInvite_badStatus_eq (db : List Event) (eid callerId : Nat)
    (status code : String)
    (hst : ¬(status = "accepted" ∨ status = "declined")) :
    respondToInvite db eid callerId status code =
      (.error ⟨"Please provide valid status (accepted/declined)", 400⟩, db) := by
  unfold respondToInvite
  rw [if_neg hst]

/-- Branch equation: a missing (empty) code short-circuits
`respondToInvite`. -/
theorem respondToInvite_emptyCode_eq (db : List Event) (eid callerId : Nat)
    (status code : String)
    (hst : status = "accepted" ∨ status = "declined") (hcode : code = "") :
    respondToInvite db eid callerId status code =
      (.error ⟨"Please provide invite code", 400⟩, db) := by
  unfold respondToInvite
  rw [if_pos hst, if_pos hcode]

/-- Branch equation: a code no invitee carries fails `respondToInvite`. -/
theorem respondToInvite_noMatch_eq (db : List Event) (eid callerId : Nat)
    (status code : String) (ev : Event)
    (hst : status = "accepted" ∨ status = "declined") (hcode : code ≠ "")
    (hfind : findEvent db eid = some ev)
    (hidx : findIndexList (fun inv => inv.inviteCode = code) ev.invitees = none) :
    respondToInvite db eid callerId status code =
      (.error ⟨"Invalid invite code", 400⟩, db) := by
  unfold respondToInvite
  rw [if_pos hst, if_neg hcode, hfind]
  dsimp only
  rw [hidx]

/-- Branch equation: the success path of `respondToInvite` updates the
matched entry and saves once. -/
theorem respondToInvite_ok_eq (db : List Event) (eid callerId : Nat)
    (status code : String) (ev : Event) (idx : Nat)
    (hst : status = "accepted" ∨ status = "declined") (hcode : code ≠ "")
    (hfind : findEvent db eid = some ev)
    (hidx : findIndexList (fun inv => inv.inviteCode = code) ev.invitees = some idx) :
    respondToInvite db eid callerId status code =
      (.ok { ev with invitees := modifyIdx (respondUpdate status callerId) ev.invitees idx },
       saveEvent db
         { ev with invitees := modifyIdx (respondUpdate status callerId) ev.invitees idx }) := by
  unfold respondToInvite
  rw [if_pos hst, if_neg hcode, hfind]
  dsimp only
  rw [hidx]

/-- C3 counterexample: on a store where event 10 exists and its invitees
hold codes `code2`/`code3`, `verifyInvitation` with the unknown code
`nope` fails with status 400 (`InvalidInput`), not with `NotFound` (404)
as the claim states. -/
theorem verifyInvitation_unknown_code_is_400 :
    (verifyInvitation db1 users1 10 "nope").fst =
      .error ⟨"Invalid invitation code", 400⟩ := by
  decide

/-- C3 amended: `verifyInvitation` is read-only (the store is returned
unchanged); when the event exists and some invitee carries the code it
returns the redacted view — only the event's id, name, date, location,
description and creator name, plus the matched invitee's id, status and
code, no other invitee's email or user identity — built from the first
matching invitee; when the event does not exist it fails with `NotFound`
(404); when the event exists but no invitee carries the code it fails
with `InvalidInput` (400), not `NotFound`. -/
theorem verifyInvitation_spec (db : List Event) (users : List User)
    (eid : Nat) (code : String) :
    (verifyInvitation db users eid code).snd = db ∧
    (findEvent db eid = none →
      (verifyInvitation db users eid code).fst = .error ⟨"Event not found", 404⟩) ∧
    ∀ ev, findEvent db eid = some ev →
      (ev.invitees.find? (fun inv => inv.inviteCode = code) = none →
        (verifyInvitation db users eid code).fst =
          .error ⟨"Invalid invitation code", 400⟩) ∧
      ∀ inv, ev.invitees.find? (fun i => i.inviteCode = code) = some inv →
        (verifyInvitation db users eid code).fst =
          .ok ⟨⟨ev.id, ev.name, ev.date, ev.location, ev.description,
                ((findUser users ev.creator).map User.name).getD ""⟩,
               inv.id, inv.status, inv.inviteCode⟩ := by
  refine ⟨?_, ?_, ?_⟩
  · cases h : findEvent db eid with
    | none => simp [verifyInvitation, h]
    | some ev =>
      cases h2 : ev.invitees.find? (fun inv => inv.inviteCode = code) with
      | none => simp [verifyInvitation, h, h2]
      | some inv => simp [verifyInvitation, h, h2]
  · intro h
    simp [verifyInvitation, h]
  · intro ev hev
    refine ⟨fun hnone => ?_, fun inv hinv => ?_⟩
    · simp [verifyInvitation, hev, hnone]
    · simp [verifyInvitation, hev, hinv]

/-- Witness for C3's amended theorem at concrete inputs: code `code2`
matches invitee 100 of event 10. -/
theorem verifyInvitation_spec_witness :
    findEvent db1 10 = some ev1 ∧
    (verifyInvitation db1 users1 10 "code2").fst =
      .ok ⟨⟨10, "Party", 20250101, "Hall", "A party", "Alice"⟩,
           100, "pending", "code2"⟩ := by
  refine ⟨by decide, ?_⟩
  have h := ((verifyInvitation_spec db1 users1 10 "code2").2.2 ev1 (by decide)).2
    inv100 (by decide)
  rw [h]
  decide

/-- C4: `respondToInvite` never changes an already-bound user identity:
on any failing call the store is unchanged, and on any successful call
the invitee list keeps its length and every entry that had a bound user
keeps exactly that user, whatever code, status and authenticated caller
were supplied. -/
theorem respondToInvite_no_rebind (db : List Event) (eid callerId : Nat)
    (status code : String) (ev : Event) (hfind : findEvent db eid = some ev) :
    (∀ e, (respondToInvite db eid callerId status code).fst = .error e →
      (respondToInvite db eid callerId status code).snd = db) ∧
    ∀ ev', (respondToInvite db eid callerId status code).fst = .ok ev' →
      ev'.invitees.length = ev.invitees.length ∧
      ∀ i inv inv' u, ev.invitees.get? i = some inv →
        ev'.invitees.get? i = some inv' → inv.user = some u → inv'.user = some u := by
  by_cases hst : status = "accepted" ∨ status = "declined"
  · by_cases hcode : code = ""
    · rw [respondToInvite_emptyCode_eq db eid callerId status code hst hcode]
      exact ⟨fun e _ => rfl, fun ev' h => by simp at h⟩
    · cases hidx : findIndexList (fun inv => inv.inviteCode = code) ev.invitees with
      | none =>
        rw [respondToInvite_noMatch_eq db eid callerId status code ev hst hcode hfind hidx]
        exact ⟨fun e _ => rfl, fun ev' h => by simp at h⟩
      | some idx =>
        rw [respondToInvite_ok_eq db eid callerId status code ev idx hst hcode hfind hidx]
        refine ⟨fun e he => by simp at he, fun ev' hok => ?_⟩
        have hev' : ev' = { ev with
            invitees := modifyIdx (respondUpdate status callerId) ev.invitees idx } := by
          simpa using hok.symm
        subst hev'
        refine ⟨modifyIdx_length _ _ _, fun i inv inv' u hi hi' hu => ?_⟩
        simp only at hi'
        rw [modifyIdx_get] at hi'
        by_cases hidx2 : i = idx
        · rw [if_pos hidx2, hi] at hi'
          simp only [Option.map_some'] at hi'
          have hinv' : inv' = respondUpdate status callerId inv :=
            (Option.some_injective _ hi').symm
          subst hinv'
          simp [respondUpdate, hu]
        · rw [if_neg hidx2, hi] at hi'
          have hinv' : inv' = inv := (Option.some_injective _ hi').symm
          subst hinv'
          exact hu
  · rw [respondToInvite_badStatus_eq db eid callerId status code hst]
    exact ⟨fun e _ => rfl, fun ev' h => by simp at h⟩

/-- Witness for C4 at concrete inputs: accepting via `code2` with caller
7 leaves invitee 100 bound to user 2. -/
theorem respondToInvite_no_rebind_witness :
    findEvent db1 10 = some ev1 ∧
    (⟨100, some 2, some "b@x.com", "accepted", "code2"⟩ : Invitee).user = some 2 := by
  refine ⟨by decide, ?_⟩
  have h := (respondToInvite_no_rebind db1 10 7 "accepted" "code2" ev1 (by decide)).2
    evR4 (by decide)
  exact h.2 0 inv100 ⟨100, some 2, some "b@x.com", "accepted", "code2"⟩ 2
    (by decide) (by decide) (by decide)

/-- C5: `respondToInvite` fails with `InvalidInput` (400) whenever the
status is not `accepted`/`declined`, and fails with status 400 or 404
whenever no invitee of the event carries the given code (including the
empty code, rejected up front); in every such failing case the store —
hence the event's invitee list — is returned unchanged. -/
theorem respondToInvite_failure_no_mutation (db : List Event)
    (eid callerId : Nat) (status code : String) :
    (¬(status = "accepted" ∨ status = "declined") →
      respondToInvite db eid callerId status code =
        (.error ⟨"Please provide valid status (accepted/declined)", 400⟩, db)) ∧
    ∀ ev, findEvent db eid = some ev →
      (∀ inv ∈ ev.invitees, inv.inviteCode ≠ code) →
      ∃ e, respondToInvite db eid callerId status code = (.error e, db) ∧
        (e.status = 400 ∨ e.status = 404) := by
  refine ⟨fun hst => respondToInvite_badStatus_eq db eid callerId status code hst,
    fun ev hfind hnone => ?_⟩
  by_cases hst : status = "accepted" ∨ status = "declined"
  · by_cases hcode : code = ""
    · exact ⟨⟨"Please provide invite code", 400⟩,
        respondToInvite_emptyCode_eq db eid callerId status code hst hcode, Or.inl rfl⟩
    · have hidx : findIndexList (fun inv => inv.inviteCode = code) ev.invitees = none :=
        findIndexList_eq_none _ _ (fun x hx => by
          simp only [decide_eq_false_iff_not]
          exact hnone x hx)
      exact ⟨⟨"Invalid invite code", 400⟩,
        respondToInvite_noMatch_eq db eid callerId status code ev hst hcode hfind hidx,
        Or.inl rfl⟩
  · exact ⟨⟨"Please provide valid status (accepted/declined)", 400⟩,
      respondToInvite_badStatus_eq db eid callerId status code hst, Or.inl rfl⟩

/-- Witness for C5 at concrete inputs: an invalid status value is
rejected with 400 and the store is unchanged. -/
theorem respondToInvite_failure_no_mutation_witness :
    respondToInvite db1 10 7 "maybe" "code2" =
      (.error ⟨"Please provide valid status (accepted/declined)", 400⟩, db1) :=
  (respondToInvite_failure_no_mutation db1 10 7 "maybe" "code2").1 (by decide)

/-- C6: `createNotification` fails exactly when creating the durable
record fails; when creation succeeds the caller receives the record even
when delivery fails; `isSent` is true exactly when the record carries an
email address and the delivery attempt succeeded, and the record
otherwise carries the requested fields with `isSent` false. -/
theorem createNotification_durability (d : NotificationData) (deliverOk : Bool) :
    (∃ e, createNotification false deliverOk d = .error e) ∧
    ∃ n, createNotification true deliverOk d = .ok n ∧
      (n.isSent = true ↔ d.email.isSome = true ∧ deliverOk = true) ∧
      n.recipient = d.recipient ∧ n.email = d.email ∧ n.ntype = d.ntype ∧
      n.title = d.title ∧ n.message = d.message ∧
      n.relatedEvent = d.relatedEvent ∧ n.relatedPhoto = d.relatedPhoto := by
  refine ⟨⟨⟨"Error creating notification", 500⟩, rfl⟩, ?_⟩
  cases he : d.email with
  | none =>
    refine ⟨buildNotification d, ?_, ?_⟩
    · simp [createNotification, buildNotification, he]
    · simp [buildNotification, he]
  | some addr =>
    cases deliverOk with
    | false =>
      refine ⟨buildNotification d, ?_, ?_⟩
      · simp [createNotification, buildNotification, he]
      · simp [buildNotification, he]
    | true =>
      refine ⟨{ buildNotification d with isSent := true }, ?_, ?_⟩
      · simp [createNotification, buildNotification, he]
      · simp [buildNotification, he]

/-- `List.any` is false exactly when the predicate fails everywhere. -/
theorem any_false_iff {α : Type} (p : α → Bool) (l : List α) :
    l.any p = false ↔ ∀ x ∈ l, p x = false := by
  rw [← Bool.not_eq_true, List.any_eq_true]
  simp

/-- Appending a user-bound entry whose user is not yet present keeps the
dedup invariant. -/
theorem inviteeListOk_append_user (l : List Invitee) (e : Invitee)
    (hl : inviteeListOk l) (hu : e.user.isSome = true)
    (hfresh : ∀ a ∈ l, a.user ≠ e.user) : inviteeListOk (l ++ [e]) := by
  unfold inviteeListOk at *
  rw [List.pairwise_append]
  refine ⟨hl, List.pairwise_singleton _ _, ?_⟩
  intro a ha b hb
  simp only [List.mem_singleton] at hb
  subst hb
  constructor
  · intro _
    exact hfresh a ha
  · intro _ hb _
    rw [hb] at hu
    simp at hu

/-- Appending an email-only entry whose email is not yet present keeps
the dedup invariant. -/
theorem inviteeListOk_append_email (l : List Invitee) (e : Invitee)
    (hl : inviteeListOk l) (hu : e.user = none)
    (hfresh : ∀ a ∈ l, a.email ≠ e.email) : inviteeListOk (l ++ [e]) := by
  unfold inviteeListOk at *
  rw [List.pairwise_append]
  refine ⟨hl, List.pairwise_singleton _ _, ?_⟩
  intro a ha b hb
  simp only [List.mem_singleton] at hb
  subst hb
  constructor
  · intro ha2 heq
    rw [heq, hu] at ha2
    simp at ha2
  · intro _ _ _
    exact hfresh a ha

/-- The `addInvitees` loop preserves the dedup invariant: every push is
guarded by the corresponding duplicate check. -/
theorem addInviteesLoop_preserves_ok (users : List User) (cs : Nat → String) :
    ∀ (specs : List InviteeSpec) (l : List Invitee) (k nid : Nat),
      inviteeListOk l → inviteeListOk (addInviteesLoop users cs l specs k nid) := by
  intro specs
  induction specs with
  | nil => intro l k nid h; exact h
  | cons spec rest ih =>
    intro l k nid h
    unfold addInviteesLoop
    dsimp only
    cases hs : spec.userId with
    | some uid =>
      dsimp only
      cases hu : findUser users uid with
      | none => exact ih l (k + 1) nid h
      | some u =>
        dsimp only
        by_cases hany : (l.any fun i => i.user = some uid) = true
        · rw [if_pos hany]
          exact ih l (k + 1) nid h
        · rw [if_neg hany]
          apply ih
          apply inviteeListOk_append_user l _ h (by rfl)
          intro a ha
          have hf := (any_false_iff _ l).mp (Bool.eq_false_iff.mpr hany) a ha
          simpa using hf
    | none =>
      dsimp only
      cases he : spec.email with
      | none => exact ih l (k + 1) nid h
      | some em =>
        dsimp only
        by_cases hany : (l.any fun i => i.email = some em) = true
        · rw [if_pos hany]
          exact ih l (k + 1) nid h
        · rw [if_neg hany]
          apply ih
          apply inviteeListOk_append_email l _ h (by rfl)
          intro a ha
          have hf := (any_false_iff _ l).mp (Bool.eq_false_iff.mpr hany) a ha
          simpa using hf

/-- The `addInvitees` loop only appends: existing entries are never
modified, reordered or removed. -/
theorem addInviteesLoop_extends (users : List User) (cs : Nat → String) :
    ∀ (specs : List InviteeSpec) (l : List Invitee) (k nid : Nat),
      ∃ tail, addInviteesLoop users cs l specs k nid = l ++ tail := by
  intro specs
  induction specs with
  | nil => intro l k nid; exact ⟨[], (List.append_nil l).symm⟩
  | cons spec rest ih =>
    intro l k nid
    unfold addInviteesLoop
    dsimp only
    cases hs : spec.userId with
    | some uid =>
      dsimp only
      cases hu : findUser users uid with
      | none => exact ih l (k + 1) nid
      | some u =>
        dsimp only
        by_cases hany : (l.any fun i => i.user = some uid) = true
        · rw [if_pos hany]
          exact ih l (k + 1) nid
        · rw [if_neg hany]
          obtain ⟨t, ht⟩ := ih
            (l ++ [⟨nid, some uid, some u.email, "pending", cs k⟩]) (k + 1) (nid + 1)
          exact ⟨⟨nid, some uid, some u.email, "pending", cs k⟩ :: t,
            by rw [ht, List.append_assoc]; rfl⟩
    | none =>
      dsimp only
      cases he : spec.email with
      | none => exact ih l (k + 1) nid
      | some em =>
        dsimp only
        by_cases hany : (l.any fun i => i.email = some em) = true
        · rw [if_pos hany]
          exact ih l (k + 1) nid
        · rw [if_neg hany]
          obtain ⟨t, ht⟩ := ih
            (l ++ [⟨nid, none, some em, "pending", cs k⟩]) (k + 1) (nid + 1)
          exact ⟨⟨nid, none, some em, "pending", cs k⟩ :: t,
            by rw [ht, List.append_assoc]; rfl⟩

/-- Codes of an appended entry. -/
theorem codesOf_append (l : List Invitee) (e : Invitee) :
    codesOf (l ++ [e]) = codesOf l ++ [e.inviteCode] := by
  simp [codesOf]

/-- When the supplied codes (one drawn per spec, starting at index `k`)
are pairwise distinct and fresh for the current list, the loop keeps all
invite codes distinct. -/
theorem addInviteesLoop_codes_nodup (users : List User) (cs : Nat → String) :
    ∀ (specs : List InviteeSpec) (l : List Invitee) (k nid : Nat),
      (codesOf l).Nodup →
      (∀ j1 j2, j1 < specs.length → j2 < specs.length →
        cs (k + j1) = cs (k + j2) → j1 = j2) →
      (∀ j, j < specs.length → cs (k + j) ∉ codesOf l) →
      (codesOf (addInviteesLoop users cs l specs k nid)).Nodup := by
  intro specs
  induction specs with
  | nil => intro l k nid hnd _ _; exact hnd
  | cons spec rest ih =>
    intro l k nid hnd hinj hfresh
    have hinj2 : ∀ j1 j2, j1 < rest.length → j2 < rest.length →
        cs (k + 1 + j1) = cs (k + 1 + j2) → j1 = j2 := by
      intro j1 j2 h1 h2 heq
      have e1 : k + 1 + j1 = k + (j1 + 1) := by omega
      have e2 : k + 1 + j2 = k + (j2 + 1) := by omega
      rw [e1, e2] at heq
      have := hinj (j1 + 1) (j2 + 1)
        (by simpa [List.length_cons] using Nat.succ_lt_succ h1)
        (by simpa [List.length_cons] using Nat.succ_lt_succ h2) heq
      omega
    have hfresh2 : ∀ j, j < rest.length → cs (k + 1 + j) ∉ codesOf l := by
      intro j hj
      have e1 : k + 1 + j = k + (j + 1) := by omega
      rw [e1]
      exact hfresh (j + 1) (by simpa [List.length_cons] using Nat.succ_lt_succ hj)
    have hk0 : cs k ∉ codesOf l := by
      have := hfresh 0 (by simp [List.length_cons])
      simpa using this
    have hpush : ∀ e : Invitee, e.inviteCode = cs k →
        (codesOf (l ++ [e])).Nodup ∧
        (∀ j, j < rest.length → cs (k + 1 + j) ∉ codesOf (l ++ [e])) := by
      intro e hec
      constructor
      · rw [codesOf_append, List.nodup_append]
        refine ⟨hnd, List.nodup_singleton _, ?_⟩
        intro a ha hb
        simp only [hec, List.mem_singleton] at hb
        subst hb
        exact hk0 ha
      · intro j hj
        rw [codesOf_append]
        intro hmem
        rcases List.mem_append.mp hmem with hmem2 | hmem2
        · exact hfresh2 j hj hmem2
        · simp only [hec, List.mem_singleton] at hmem2
          have e1 : k + 1 + j = k + (j + 1) := by omega
          rw [e1] at hmem2
          have heq : cs (k + (j + 1)) = cs (k + 0) := by
            rw [Nat.add_zero]
            exact hmem2
          have := hinj (j + 1) 0
            (by simpa [List.length_cons] using Nat.succ_lt_succ hj)
            (by simp [List.length_cons]) heq
          omega
    unfold addInviteesLoop
    dsimp only
    cases hs : spec.userId with
    | some uid =>
      dsimp only
      cases hu : findUser users uid with
      | none => exact ih l (k + 1) nid hnd hinj2 hfresh2
      | some u =>
        dsimp only
        by_cases hany : (l.any fun i => i.user = some uid) = true
        · rw [if_pos hany]
          exact ih l (k + 1) nid hnd hinj2 hfresh2
        · rw [if_neg hany]
          obtain ⟨hnd2, hfr2⟩ := hpush ⟨nid, some uid, some u.email, "pending", cs k⟩ rfl
          exact ih _ (k + 1) (nid + 1) hnd2 hinj2 hfr2
    | none =>
      dsimp only
      cases he : spec.email with
      | none => exact ih l (k + 1) nid hnd hinj2 hfresh2
      | some em =>
        dsimp only
        by_cases hany : (l.any fun i => i.email = some em) = true
        · rw [if_pos hany]
          exact ih l (k + 1) nid hnd hinj2 hfresh2
        · rw [if_neg hany]
          obtain ⟨hnd2, hfr2⟩ := hpush ⟨nid, none, some em, "pending", cs k⟩ rfl
          exact ih _ (k + 1) (nid + 1) hnd2 hinj2 hfr2

/-- Shifting the code supply by one is the same as starting the loop at
the next index. -/
theorem addInviteesLoop_shift (users : List User) (cs : Nat → String) :
    ∀ (specs : List InviteeSpec) (l : List Invitee) (k nid : Nat),
      addInviteesLoop users (fun i => cs (i + 1)) l specs k nid =
        addInviteesLoop users cs l specs (k + 1) nid := by
  intro specs
  induction specs with
  | nil => intro l k nid; rfl
  | cons spec rest ih =>
    intro l k nid
    unfold addInviteesLoop
    dsimp only
    cases hs : spec.userId with
    | some uid =>
      dsimp only
      cases hu : findUser users uid with
      | none => exact ih l (k + 1) nid
      | some u =>
        dsimp only
        by_cases hany : (l.any fun i => i.user = some uid) = true
        · rw [if_pos hany, if_pos hany]
          exact ih l (k + 1) nid
        · rw [if_neg hany, if_neg hany]
          exact ih _ (k + 1) (nid + 1)
    | none =>
      dsimp only
      cases he : spec.email with
      | none => exact ih l (k + 1) nid
      | some em =>
        dsimp only
        by_cases hany : (l.any fun i => i.email = some em) = true
        · rw [if_pos hany, if_pos hany]
          exact ih l (k + 1) nid
        · rw [if_neg hany, if_neg hany]
          exact ih _ (k + 1) (nid + 1)

/-- A spec naming an unresolvable user id is skipped: the loop continues
with the remaining specs (consuming one code index). -/
theorem addInviteesLoop_skip_unresolved (users : List User) (cs : Nat → String)
    (l : List Invitee) (spec : InviteeSpec) (rest : List InviteeSpec)
    (k nid uid : Nat) (hspec : spec.userId = some uid)
    (huser : findUser users uid = none) :
    addInviteesLoop users cs l (spec :: rest) k nid =
      addInviteesLoop users cs l rest (k + 1) nid := by
  conv_lhs => unfold addInviteesLoop
  dsimp only
  rw [hspec]
  dsimp only
  rw [huser]

/-- Saving a document with the same id leaves it findable as the saved
version. -/
theorem findEvent_save (db : List Event) (eid : Nat) (ev ev' : Event)
    (h : findEvent db eid = some ev) (hid : ev'.id = ev.id) :
    findEvent (saveEvent db ev') eid = some ev' := by
  have hev : ev.id = eid := by
    have := List.find?_some h
    simpa using this
  unfold findEvent saveEvent at *
  induction db with
  | nil => simp at h
  | cons x rest ih =>
    by_cases hx : x.id = eid
    · rw [List.find?_cons_of_pos _ (by simpa using hx)] at h
      have hxe : x = ev := by injection h
      subst hxe
      simp only [List.map_cons]
      rw [if_pos (by rw [hid])]
      rw [List.find?_cons_of_pos _ (by simp [hid, hev])]
    · rw [List.find?_cons_of_neg _ (by simpa using hx)] at h
      simp only [List.map_cons]
      have hxid : ¬(x.id = ev'.id) := by
        rw [hid, hev]
        exact hx
      rw [if_neg hxid]
      rw [List.find?_cons_of_neg _ (by simpa using hx)]
      exact ih h

/-- Branch equation: `addInvitees` by a non-creator fails with 401 and
does not touch the store. -/
theorem addInvitees_unauthorized_eq (db : List Event) (users : List User)
    (cs : Nat → String) (nid eid rid : Nat) (specs : List InviteeSpec)
    (ev : Event) (hfind : findEvent db eid = some ev)
    (hcr : ev.creator ≠ rid) :
    addInvitees db users cs nid eid rid (some specs) =
      (.error ⟨"Not authorized to add invitees to this event", 401⟩, db) := by
  unfold addInvitees
  dsimp only
  rw [hfind]
  dsimp only
  rw [if_neg hcr]

/-- Branch equation: `addInvitees` by the creator runs the whole loop and
saves the updated event once. -/
theorem addInvitees_ok_eq (db : List Event) (users : List User)
    (cs : Nat → String) (nid eid rid : Nat) (specs : List InviteeSpec)
    (ev : Event) (hfind : findEvent db eid = some ev)
    (hcr : ev.creator = rid) :
    addInvitees db users cs nid eid rid (some specs) =
      (.ok { ev with invitees := addInviteesLoop users cs ev.invitees specs 0 nid },
       saveEvent db
         { ev with invitees := addInviteesLoop users cs ev.invitees specs 0 nid }) := by
  unfold addInvitees
  dsimp only
  rw [hfind]
  dsimp only
  rw [if_pos hcr]

/-- C2: the dedup invariant — at most one invitee entry per bound user
identity, and at most one per email among entries with no bound user —
is preserved across any pair of `addInvitees` calls, with any specs and
in any order, and also against duplicates inside a single batch. -/
theorem addInvitees_dedup_idempotent (db : List Event) (users : List User)
    (cs1 cs2 : Nat → String) (nid1 nid2 eid r1 r2 : Nat)
    (specs1 specs2 : List InviteeSpec) (ev : Event)
    (hfind : findEvent db eid = some ev) (hok : inviteeListOk ev.invitees) :
    ∀ ev1, (addInvitees db users cs1 nid1 eid r1 (some specs1)).fst = .ok ev1 →
      inviteeListOk ev1.invitees ∧
      ∀ ev2, (addInvitees (addInvitees db users cs1 nid1 eid r1 (some specs1)).snd
                users cs2 nid2 eid r2 (some specs2)).fst = .ok ev2 →
        inviteeListOk ev2.invitees := by
  intro ev1 h1
  by_cases hcr1 : ev.creator = r1
  · rw [addInvitees_ok_eq db users cs1 nid1 eid r1 specs1 ev hfind hcr1] at h1
    have h1' : ev1 =
        { ev with invitees := addInviteesLoop users cs1 ev.invitees specs1 0 nid1 } := by
      simpa using h1.symm
    subst h1'
    have hok1 : inviteeListOk (addInviteesLoop users cs1 ev.invitees specs1 0 nid1) :=
      addInviteesLoop_preserves_ok users cs1 specs1 ev.invitees 0 nid1 hok
    refine ⟨hok1, fun ev2 h2 => ?_⟩
    rw [addInvitees_ok_eq db users cs1 nid1 eid r1 specs1 ev hfind hcr1] at h2
    dsimp only at h2
    have hfind2 := findEvent_save db eid ev
      { ev with invitees := addInviteesLoop users cs1 ev.invitees specs1 0 nid1 } hfind rfl
    by_cases hcr2 : ({ ev with invitees := addInviteesLoop users cs1 ev.invitees specs1 0 nid1 } : Event).creator = r2
    · rw [addInvitees_ok_eq _ users cs2 nid2 eid r2 specs2 _ hfind2 hcr2] at h2
      have h2' : ev2 =
          { ev with invitees := addInviteesLoop users cs2 (addInviteesLoop users cs1 ev.invitees specs1 0 nid1) specs2 0 nid2 } := by
        simpa using h2.symm
      subst h2'
      exact addInviteesLoop_preserves_ok users cs2 specs2 _ 0 nid2 hok1
    · rw [addInvitees_unauthorized_eq _ users cs2 nid2 eid r2 specs2 _ hfind2 hcr2] at h2
      simp at h2
  · rw [addInvitees_unauthorized_eq db users cs1 nid1 eid r1 specs1 ev hfind hcr1] at h1
    simp at h1

/-- Witness for C2 at concrete inputs: adding `d@x.com` twice in one
batch, then re-adding the already-invited user 2, keeps the invariant. -/
theorem addInvitees_dedup_idempotent_witness : inviteeListOk evA.invitees := by
  have h := addInvitees_dedup_idempotent db1 users1 csF csF 500 700 10 1 1
    specsW1 specsW2 ev1 (by decide) (by decide) evA (by decide)
  exact h.2 evA (by decide)

/-- C7: when the drawn codes (one per spec) are pairwise distinct and
fresh with respect to the event's existing codes — the uuid assumption —
a successful `addInvitees` keeps every invite code unique within the
event, and never replaces or regenerates an existing entry or its code:
the previous invitee list survives unchanged as a prefix, entries for an
already-present user or email being silently skipped. -/
theorem addInvitees_codes_unique (db : List Event) (users : List User)
    (cs : Nat → String) (nid eid rid : Nat) (specs : List InviteeSpec) (ev : Event)
    (hfind : findEvent db eid = some ev)
    (hinj : ∀ j1, j1 < specs.length → ∀ j2, j2 < specs.length →
      cs j1 = cs j2 → j1 = j2)
    (hfresh : ∀ j, j < specs.length → cs j ∉ codesOf ev.invitees)
    (hnd : (codesOf ev.invitees).Nodup) :
    ∀ ev', (addInvitees db users cs nid eid rid (some specs)).fst = .ok ev' →
      (∃ tail, ev'.invitees = ev.invitees ++ tail) ∧
      (codesOf ev'.invitees).Nodup := by
  intro ev' h
  by_cases hcr : ev.creator = rid
  · rw [addInvitees_ok_eq db users cs nid eid rid specs ev hfind hcr] at h
    have h' : ev' =
        { ev with invitees := addInviteesLoop users cs ev.invitees specs 0 nid } := by
      simpa using h.symm
    subst h'
    constructor
    · simpa using addInviteesLoop_extends users cs specs ev.invitees 0 nid
    · exact addInviteesLoop_codes_nodup users cs specs ev.invitees 0 nid hnd
        (fun j1 j2 hj1 hj2 heq => by
          rw [Nat.zero_add, Nat.zero_add] at heq
          exact hinj j1 hj1 j2 hj2 heq)
        (fun j hj => by
          rw [Nat.zero_add]
          exact hfresh j hj)
  · rw [addInvitees_unauthorized_eq db users cs nid eid rid specs ev hfind hcr] at h
    simp at h

/-- Witness for C7 at concrete inputs: adding `a@x.com` twice with the
fresh two-code supply `cs7` yields one new entry, keeps the old entries
and codes intact, and all codes distinct. -/
theorem addInvitees_codes_unique_witness :
    (∃ tail, evR7.invitees = ev1.invitees ++ tail) ∧
    (codesOf evR7.invitees).Nodup := by
  exact addInvitees_codes_unique db1 users1 cs7 600 10 1 specsW7 ev1
    (by decide) (by decide) (by decide) (by decide) evR7 (by decide)

/-- C8: `addInvitees` fails with `Unauthorized` (401) and leaves the
store untouched whenever the requester is not the event's creator;
for the creator it processes the whole batch and persists the result in
a single save (the returned store is exactly one `saveEvent` of the
fully-processed event — never a partial write); and a spec naming a user
id that does not resolve is skipped with no error, the remaining specs
being processed exactly as if the bad spec were absent (with the code
supply advanced by one). -/
theorem addInvitees_auth_skip_atomic (db : List Event) (users : List User)
    (cs : Nat → String) (nid eid rid : Nat) (ev : Event)
    (hfind : findEvent db eid = some ev) :
    (∀ specs, ev.creator ≠ rid →
      addInvitees db users cs nid eid rid (some specs) =
        (.error ⟨"Not authorized to add invitees to this event", 401⟩, db)) ∧
    (∀ specs, ev.creator = rid →
      addInvitees db users cs nid eid rid (some specs) =
        (.ok { ev with invitees := addInviteesLoop users cs ev.invitees specs 0 nid },
         saveEvent db
           { ev with invitees := addInviteesLoop users cs ev.invitees specs 0 nid })) ∧
    ∀ spec rest uid, spec.userId = some uid → findUser users uid = none →
      addInvitees db users cs nid eid rid (some (spec :: rest)) =
        addInvitees db users (fun i => cs (i + 1)) nid eid rid (some rest) := by
  refine ⟨fun specs hcr =>
      addInvitees_unauthorized_eq db users cs nid eid rid specs ev hfind hcr,
    fun specs hcr => addInvitees_ok_eq db users cs nid eid rid specs ev hfind hcr,
    fun spec rest uid hspec huser => ?_⟩
  by_cases hcr : ev.creator = rid
  · rw [addInvitees_ok_eq db users cs nid eid rid (spec :: rest) ev hfind hcr,
      addInvitees_ok_eq db users (fun i => cs (i + 1)) nid eid rid rest ev hfind hcr]
    rw [addInviteesLoop_skip_unresolved users cs ev.invitees spec rest 0 nid uid hspec huser]
    rw [addInviteesLoop_shift users cs rest ev.invitees 0 nid]
  · rw [addInvitees_unauthorized_eq db users cs nid eid rid (spec :: rest) ev hfind hcr,
      addInvitees_unauthorized_eq db users (fun i => cs (i + 1)) nid eid rid rest ev hfind hcr]

/-- Witness for C8 at concrete inputs: requester 2 is not the creator of
event 10, so the call fails with 401 and the store is unchanged. -/
theorem addInvitees_auth_skip_atomic_witness :
    addInvitees db1 users1 csF 500 10 2 (some specsW1) =
      (.error ⟨"Not authorized to add invitees to this event", 401⟩, db1) :=
  (addInvitees_auth_skip_atomic db1 users1 csF 500 10 2 ev1 (by decide)).1
    specsW1 (by decide)

/-- `createNotification` on data without an email never attempts
delivery and returns the plain record. -/
theorem createNotification_no_email (deliverOk : Bool) (d : NotificationData)
    (he : d.email = none) :
    createNotification true deliverOk d = .ok (buildNotification d) := by
  unfold createNotification buildNotification
  simp [he]

/-- Characterization of the `sendInvitations` loop: every notification
record it creates is addressed to the bound user of some invitee entry,
and every id resolving to an email-only invitee whose email delivery
succeeds is reported sent. -/
theorem sendLoop_spec (event : Event) (creatorName : String) (emailOk : Nat → Bool) :
    ∀ ids : List Nat,
      (∀ n ∈ (sendLoop event creatorName emailOk ids).2.2,
        ∃ inv, inv ∈ event.invitees ∧ ∃ uid, inv.user = some uid ∧
          n.recipient = some uid) ∧
      (∀ iid ∈ ids, ∀ inv, event.invitees.find? (fun i => i.id = iid) = some inv →
        inv.user = none → emailOk iid = true →
        iid ∈ (sendLoop event creatorName emailOk ids).1) := by
  intro ids
  induction ids with
  | nil =>
    exact ⟨fun n hn => absurd hn (List.not_mem_nil n),
      fun iid hiid => absurd hiid (List.not_mem_nil iid)⟩
  | cons iid rest ih =>
    unfold sendLoop
    dsimp only
    cases hf : event.invitees.find? (fun i => i.id = iid) with
    | none =>
      dsimp only
      refine ⟨ih.1, fun jid hjid inv2 hfind hnone hok2 => ?_⟩
      rcases List.mem_cons.mp hjid with rfl | hmem
      · rw [hf] at hfind
        exact absurd hfind (by simp)
      · exact ih.2 jid hmem inv2 hfind hnone hok2
    | some inv =>
      dsimp only
      by_cases hok : emailOk iid = true
      · rw [if_pos hok]
        cases hu : inv.user with
        | some uid =>
          dsimp only
          rw [createNotification_no_email true (inviteNotificationData event creatorName uid) rfl]
          dsimp only
          constructor
          · intro n hn
            rcases List.mem_cons.mp hn with rfl | hmem
            · exact ⟨inv, List.mem_of_find?_eq_some hf, uid, hu, rfl⟩
            · exact ih.1 n hmem
          · intro jid hjid inv2 hfind hnone hok2
            rcases List.mem_cons.mp hjid with rfl | hmem
            · rw [hf] at hfind
              have : inv2 = inv := by injection hfind with hh; exact hh.symm
              subst this
              rw [hu] at hnone
              exact absurd hnone (by simp)
            · exact List.mem_cons_of_mem _ (ih.2 jid hmem inv2 hfind hnone hok2)
        | none =>
          dsimp only
          refine ⟨ih.1, fun jid hjid inv2 hfind hnone hok2 => ?_⟩
          rcases List.mem_cons.mp hjid with rfl | hmem
          · exact List.mem_cons_self _ _
          · exact List.mem_cons_of_mem _ (ih.2 jid hmem inv2 hfind hnone hok2)
      · rw [if_neg hok]
        dsimp only
        refine ⟨ih.1, fun jid hjid inv2 hfind hnone hok2 => ?_⟩
        rcases List.mem_cons.mp hjid with rfl | hmem
        · exact absurd hok2 hok
        · exact ih.2 jid hmem inv2 hfind hnone hok2

/-- C10: in a successful `sendInvitations` call by the creator, a durable
notification record (type `event_invite`) is created only for invitees
with a bound user identity — every created record is addressed to the
bound user of some invitee entry — while an email-only invitee whose
email delivery succeeds gets no record and is nevertheless reported as
successfully sent. -/
theorem sendInvitations_record_only_for_bound (db : List Event)
    (users : List User) (eid rid : Nat) (ids : List Nat) (emailOk : Nat → Bool)
    (ev : Event) (hfind : findEvent db eid = some ev) (hcr : ev.creator = rid)
    (hne : ids.isEmpty = false) :
    ∀ out, (sendInvitations db users eid rid ids emailOk).fst = .ok out →
      (∀ n ∈ out.notifications, ∃ inv, inv ∈ ev.invitees ∧
        ∃ uid, inv.user = some uid ∧ n.recipient = some uid) ∧
      ∀ iid ∈ ids, ∀ inv, ev.invitees.find? (fun i => i.id = iid) = some inv →
        inv.user = none → emailOk iid = true → iid ∈ out.sent := by
  intro out hout
  have heq : sendInvitations db users eid rid ids emailOk =
      (.ok ⟨(sendLoop ev (((findUser users ev.creator).map User.name).getD "") emailOk ids).1,
            (sendLoop ev (((findUser users ev.creator).map User.name).getD "") emailOk ids).2.1,
            (sendLoop ev (((findUser users ev.creator).map User.name).getD "") emailOk ids).2.2⟩,
       db) := by
    unfold sendInvitations
    dsimp only
    rw [hfind]
    dsimp only
    rw [if_pos hcr, hne]
    simp only [Bool.false_eq_true, if_false]
  rw [heq] at hout
  have hout' : out =
      ⟨(sendLoop ev (((findUser users ev.creator).map User.name).getD "") emailOk ids).1,
       (sendLoop ev (((findUser users ev.creator).map User.name).getD "") emailOk ids).2.1,
       (sendLoop ev (((findUser users ev.creator).map User.name).getD "") emailOk ids).2.2⟩ := by
    simpa using hout.symm
  subst hout'
  have hs := sendLoop_spec ev (((findUser users ev.creator).map User.name).getD "") emailOk ids
  exact ⟨hs.1, fun iid hiid inv hf hn ho => hs.2 iid hiid inv hf hn ho⟩

/-- Witness for C10 at concrete inputs: invitee 101 of event 10 is
email-only; with email delivery succeeding it is reported sent (and, by
the theorem, no notification record is created for it). -/
theorem sendInvitations_record_only_for_bound_witness :
    findEvent db1 10 = some ev1 ∧ (101 : Nat) ∈ ([101] : List Nat) := by
  refine ⟨by decide, ?_⟩
  have h := sendInvitations_record_only_for_bound db1 users1 10 1 [101]
    (fun _ => true) ev1 (by decide) (by decide) (by rfl) ⟨[101], [], []⟩ (by decide)
  exact h.2 101 (by decide) inv101 (by decide) (by decide) (by rfl)
